import Mathlib

/-!
# third_robot_monitor: the map monitor server

A shallow embedding of `third_robot_monitor/src/monitor_server.cpp`.

* `double` values are exact rationals (`ℚ`); `int` values are `Int`.
* `std::cos` and `std::sin` come from the C library and are taken as a
  parameter (`Libm`).
* A `cv::Mat` is the term that built it: the decoded file, `cv::resize`
  applied to a term, `cv::circle` or `cv::line` applied to a term. Two buffers
  described by the same term hold the same pixels. OpenCV calls are total
  in this model.
* `DrawPosOnMapWith` and `WaitKeyJudgeWith` are the same two member functions
  on the arithmetic of the machine: every operation on `double` values and
  both conversions between `int` and `double` are taken from a parameter
  (`Fpu`), in the order the source writes them, and `cv::resize` returns no
  image where the library raises. With exact operations (`exactFpu`) they
  agree with `DrawPosOnMap` and, where `cv::resize` returns, with
  `WaitKeyJudge`.
* The class `ThirdRobotMonitorServer` is the record `Server`; a member
  function takes the record and returns the updated record next to its
  return value.
-/

namespace ThirdRobotMonitor

/-! ## Constants and enums of the source -/

def ARROW_LENGTH : Int := 10

def DEFAULT_MAP_RESOLUTION : ℚ := 0.1

def DEFAULT_RESIZE_RATIO : ℚ := 0.2

/-- Enum `WAIT_KEY_MODE`, first enumerator. -/
def CURR_POSITON : Int := 0

/-- Enum `WAIT_KEY_MODE`, second enumerator. -/
def HISTORY_POSITION : Int := 1

/-- Enum `WAIT_KEY_MODE`, third enumerator. -/
def QUIT : Int := 2

/-- Enum `RESULT`, first enumerator. -/
def OK : Int := 0

/-- Enum `RESULT`, second enumerator. -/
def NG : Int := 1

/-- Enum `MAP_COORD`, used as an index into `map_origin_`. -/
def INDEX_X : Nat := 0

/-- Enum `MAP_COORD`, used as an index into `map_origin_`. -/
def INDEX_Y : Nat := 1

/-! ## Library types -/

/-- The two C library functions `DrawPosOnMap` calls. -/
structure Libm where
  cos : ℚ → ℚ
  sin : ℚ → ℚ

/-- Colour value `cv::Scalar` (blue, green, red). -/
structure Scalar where
  v0 : Int
  v1 : Int
  v2 : Int
deriving DecidableEq, Repr

def RED : Scalar := ⟨0, 0, 255⟩

/-- Pixel point `cv::Point`, integer coordinates. -/
structure Point where
  x : Int
  y : Int
deriving DecidableEq, Repr

/-- Conversion of a `double` to `int`: the fraction is dropped (rounding
toward zero). -/
def toInt (d : ℚ) : Int :=
  if 0 ≤ d then Int.floor d else Int.ceil d

/-- Constructor call `cv::Point(double, double)`: both arguments are
converted to `int`. -/
def Point.ofDouble (x y : ℚ) : Point :=
  ⟨toInt x, toInt y⟩

/-- Rounding `cvRound` to the nearest integer, ties to the even one. -/
def cvRound (d : ℚ) : Int :=
  let f := Int.floor d
  let r := d - (f : ℚ)
  if r < 1 / 2 then f
  else if 1 / 2 < r then f + 1
  else if f % 2 = 0 then f else f + 1

/-- Raster buffer `cv::Mat`, described by the calls that produced it. -/
inductive Mat where
  | empty : Mat
  | decoded (rows cols : Int) (data : List Nat) : Mat
  | resize (src : Mat) (fx fy : ℚ) : Mat
  | circle (img : Mat) (center : Point) (radius : Int) (color : Scalar) (thickness : Int) : Mat
  | line (img : Mat) (pt1 pt2 : Point) (color : Scalar) (thickness : Int) : Mat
deriving DecidableEq, Repr

/-- Field `rows` of a `cv::Mat`. -/
def Mat.rows : Mat → Int
  | .empty => 0
  | .decoded r _ _ => r
  | .resize src _ fy => cvRound ((src.rows : ℚ) * fy)
  | .circle img _ _ _ _ => img.rows
  | .line img _ _ _ _ => img.rows

/-- Field `cols` of a `cv::Mat`. -/
def Mat.cols : Mat → Int
  | .empty => 0
  | .decoded _ c _ => c
  | .resize src fx _ => cvRound ((src.cols : ℚ) * fx)
  | .circle img _ _ _ _ => img.cols
  | .line img _ _ _ _ => img.cols

/-- Call `src.copyTo(dst)`: the new content of `dst`. -/
def Mat.copyTo (src _dst : Mat) : Mat := src

/-- Call `src.clone()`. -/
def Mat.clone (src : Mat) : Mat := src

/-! ## The server -/

/-- Service request `TeleportAbsolute::Request`. -/
structure Request where
  x : ℚ
  y : ℚ
  theta : ℚ
deriving DecidableEq, Repr

/-- Data members of `ThirdRobotMonitorServer` that the member functions
read or write. -/
structure Server where
  resize_ratio_curr_ : ℚ
  resize_ratio_prev_ : ℚ
  map_resolution_ : ℚ
  map_origin_ : List ℚ
  point_curr_ : Point
  point_tip_ : Point
  map_img_ori_ : Mat
  map_img_ori_small_ : Mat
  map_img_pos_curr_ : Mat
  map_img_pos_hist_ : Mat
  req_ : Request
  state_ : Int
deriving DecidableEq, Repr

/-- Entries of the parameter server that `LoadRosParam` reads; `none` is an
entry that is not set. -/
structure ParamStore where
  ratio : Option ℚ
  resolution : Option ℚ
  origin : List ℚ

/-- Constructor of `ThirdRobotMonitorServer` with `LoadRosParam`: the view
mode is `CURR_POSITON`, the buffers are empty, the request and the points
are default constructed. The member `resize_ratio_prev_` is not
initialised; its content is the argument `prev`. -/
def construct (store : ParamStore) (prev : ℚ) : Server :=
  { resize_ratio_curr_ := store.ratio.getD DEFAULT_RESIZE_RATIO
    resize_ratio_prev_ := prev
    map_resolution_ := store.resolution.getD DEFAULT_MAP_RESOLUTION
    map_origin_ := store.origin
    point_curr_ := ⟨0, 0⟩
    point_tip_ := ⟨0, 0⟩
    map_img_ori_ := Mat.empty
    map_img_ori_small_ := Mat.empty
    map_img_pos_curr_ := Mat.empty
    map_img_pos_hist_ := Mat.empty
    req_ := ⟨0, 0, 0⟩
    state_ := CURR_POSITON }

/-- Member function `DrawPosOnMap`. -/
def DrawPosOnMap (lm : Libm) (s : Server) (req : Request) : Server :=
  -- only current pos
  let map_img_pos_curr_ := s.map_img_ori_small_.copyTo s.map_img_pos_curr_
  -- center of the robot on the map
  let x_map_center : ℚ :=
    (req.x - s.map_origin_.getD INDEX_X 0) * s.resize_ratio_curr_ / s.map_resolution_
  let y_map_center : ℚ :=
    (map_img_pos_curr_.rows : ℚ)
      - (req.y - s.map_origin_.getD INDEX_Y 0) / s.map_resolution_ * s.resize_ratio_curr_
  let point_curr_ := Point.ofDouble x_map_center y_map_center
  -- arrow tip that represents the robot orientation on the map
  let x_map_tip : ℚ := x_map_center + (ARROW_LENGTH : ℚ) * lm.cos req.theta
  let y_map_tip : ℚ := y_map_center - (ARROW_LENGTH : ℚ) * lm.sin req.theta
  let point_tip_ := Point.ofDouble x_map_tip y_map_tip
  -- draw
  let map_img_pos_curr_ := Mat.circle map_img_pos_curr_ point_curr_ 2 RED 3
  let map_img_pos_curr_ := Mat.line map_img_pos_curr_ point_curr_ point_tip_ RED 2
  -- all pos history
  let map_img_pos_hist_ := Mat.circle s.map_img_pos_hist_ point_curr_ 2 RED 3
  let map_img_pos_hist_ := Mat.line map_img_pos_hist_ point_curr_ point_tip_ RED 2
  { s with
    point_curr_ := point_curr_
    point_tip_ := point_tip_
    map_img_pos_curr_ := map_img_pos_curr_
    map_img_pos_hist_ := map_img_pos_hist_ }

/-- Member function `WaitKeyJudge`: the returned `int` and the server
afterwards. Key codes: c 99, C 67, h 104, H 72, r 114, R 82, p 112, P 80,
m 109, M 77, Esc 27, q 113, Q 81. -/
def WaitKeyJudge (lm : Libm) (s : Server) (i_key : Int) : Int × Server :=
  -- current pose
  if i_key = 99 ∨ i_key = 67 then
    (CURR_POSITON, s)
  -- history of pose
  else if i_key = 104 ∨ i_key = 72 then
    (HISTORY_POSITION, s)
  -- reset history
  else if i_key = 114 ∨ i_key = 82 then
    let map_img_pos_hist_ := s.map_img_ori_small_.copyTo s.map_img_pos_hist_
    let map_img_pos_hist_ := Mat.circle map_img_pos_hist_ s.point_curr_ 2 RED 3
    let map_img_pos_hist_ := Mat.line map_img_pos_hist_ s.point_curr_ s.point_tip_ RED 2
    -- keep original state
    (s.state_, { s with map_img_pos_hist_ := map_img_pos_hist_ })
  -- zoom
  else if i_key = 112 ∨ i_key = 80 then
    let s1 := { s with
      resize_ratio_prev_ := s.resize_ratio_curr_
      resize_ratio_curr_ := s.resize_ratio_curr_ + 0.05 }
    let ret := s1.state_
    let small := Mat.resize s1.map_img_ori_ s1.resize_ratio_curr_ s1.resize_ratio_curr_
    let s2 := { s1 with
      map_img_ori_small_ := small
      map_img_pos_curr_ := small.clone
      map_img_pos_hist_ := small.clone }
    (ret, DrawPosOnMap lm s2 s2.req_)
  -- fade
  else if i_key = 109 ∨ i_key = 77 then
    let s1 := { s with
      resize_ratio_prev_ := s.resize_ratio_curr_
      resize_ratio_curr_ := s.resize_ratio_curr_ - 0.05 }
    let ret := s1.state_
    let small := Mat.resize s1.map_img_ori_ s1.resize_ratio_curr_ s1.resize_ratio_curr_
    let s2 := { s1 with
      map_img_ori_small_ := small
      map_img_pos_curr_ := small.clone
      map_img_pos_hist_ := small.clone }
    (ret, DrawPosOnMap lm s2 s2.req_)
  -- Esc or q
  else if i_key = 27 ∨ i_key = 113 ∨ i_key = 81 then
    (QUIT, s)
  else
    -- do nothing: `ret = true`, and `true` converts to the `int` 1
    (1, s)

/-- Member function `ShowMap`: the buffer handed to `cv::imshow`. -/
def ShowMap (s : Server) : Mat :=
  if s.state_ = CURR_POSITON then s.map_img_pos_curr_
  else if s.state_ = HISTORY_POSITION then s.map_img_pos_hist_
  else s.map_img_pos_curr_

/-- Service callback `getPos`: the returned `bool` and the server
afterwards. -/
def getPos (lm : Libm) (s : Server) (req : Request) : Bool × Server :=
  let s1 := { s with req_ := req }
  (true, DrawPosOnMap lm s1 req)

/-- Call `ros::spinOnce()`: the queued service requests are handed to
`getPos` in arrival order. -/
def spinOnce (lm : Libm) (s : Server) (calls : List Request) : Server :=
  calls.foldl (fun acc req => (getPos lm acc req).2) s

/-- What one pass of the loop in `RunMainLoop` receives from outside: the
value of `nh_.ok()` at the loop test, the value of `cv::waitKey` (negative
when no key was pressed) and the service requests that `ros::spinOnce`
dispatches. -/
structure Tick where
  ok : Bool
  key : Int
  calls : List Request
deriving DecidableEq, Repr

/-- Outcome of `RunMainLoop` on a finite run of passes: whether the loop was
left, the server, and the buffers shown so far. -/
structure LoopResult where
  exited : Bool
  srv : Server
  shown : List Mat
deriving DecidableEq, Repr

/-- Statement `state_ = WaitKeyJudge(key)` of `RunMainLoop`. -/
def handleKey (lm : Libm) (s : Server) (key : Int) : Server :=
  let r := WaitKeyJudge lm s key
  { r.2 with state_ := r.1 }

/-- Loop of `RunMainLoop`, one list element per pass; `shown` collects the
buffers displayed before this point. -/
def RunMainLoopFrom (lm : Libm) (s : Server) (shown : List Mat) : List Tick → LoopResult
  | [] => ⟨false, s, shown⟩
  | t :: rest =>
    if t.ok = false then ⟨true, s, shown⟩
    else
      let s1 := if 0 ≤ t.key then handleKey lm s t.key else s
      if s1.state_ = QUIT then ⟨true, s1, shown⟩
      else
        let frame := ShowMap s1
        let s2 := spinOnce lm s1 t.calls
        RunMainLoopFrom lm s2 (shown ++ [frame]) rest

/-- Member function `RunMainLoop`. -/
def RunMainLoop (lm : Libm) (s : Server) (ticks : List Tick) : LoopResult :=
  RunMainLoopFrom lm s [] ticks

/-- Member function `LoadMapImage`; `file` is what `cv::imread` decoded
(`Mat.empty` when it could not). The returned value is `none` where the
function body ends without a `return` statement. -/
def LoadMapImage (s : Server) (file : Mat) : Option Int × Server :=
  let s1 := { s with map_img_ori_ := file }
  if s1.map_img_ori_.rows = 0 ∨ s1.map_img_ori_.cols = 0 then
    (some NG, s1)
  else
    let small := Mat.resize s1.map_img_ori_ s1.resize_ratio_curr_ s1.resize_ratio_curr_
    (none, { s1 with
      map_img_ori_small_ := small
      map_img_pos_curr_ := small.clone
      map_img_pos_hist_ := small.clone })

/-- Function `main`: the exit code, `none` while `RunMainLoop` has not been
left. `raw` is the `int` the caller reads where `LoadMapImage` ended
without a `return` statement. -/
def main (lm : Libm) (argc : Int) (store : ParamStore) (prev : ℚ) (file : Mat) (raw : Int)
    (ticks : List Tick) : Option Int :=
  if argc < 3 then some (-1)
  else
    let monitor_server := construct store prev
    let r := LoadMapImage monitor_server file
    if r.1.getD raw = NG then some (-1)
    else if (RunMainLoop lm r.2 ticks).exited then some 0
    else none

/-! ## The drawing and key functions on machine arithmetic -/

/-- Arithmetic on `double` values as the machine performs it. A finite
`double` is a rational number; each operation returns the `double` the
machine computes, and the two conversions are those between `int` and
`double`. -/
structure Fpu where
  add : ℚ → ℚ → ℚ
  sub : ℚ → ℚ → ℚ
  mul : ℚ → ℚ → ℚ
  div : ℚ → ℚ → ℚ
  ofInt : Int → ℚ
  toInt : ℚ → Int

/-- Arithmetic without rounding and without a bound on `int`. -/
def exactFpu : Fpu :=
  { add := fun a b => a + b
    sub := fun a b => a - b
    mul := fun a b => a * b
    div := fun a b => a / b
    ofInt := fun n => (n : ℚ)
    toInt := toInt }

/-- Call `cv::resize(src, dst, cv::Size(), fx, fy, cv::INTER_LINEAR)`: the
image written to `dst`, `none` where the library raises `cv::Exception`
instead of returning (empty source, a scale factor that is not positive, a
target size without a row or without a column). -/
def cvResize (src : Mat) (fx fy : ℚ) : Option Mat :=
  if 0 < src.rows ∧ 0 < src.cols ∧ 0 < fx ∧ 0 < fy
      ∧ 0 < (Mat.resize src fx fy).rows ∧ 0 < (Mat.resize src fx fy).cols then
    some (Mat.resize src fx fy)
  else none

/-- Member function `DrawPosOnMap` on the arithmetic `fp`. -/
def DrawPosOnMapWith (fp : Fpu) (lm : Libm) (s : Server) (req : Request) : Server :=
  -- only current pos
  let map_img_pos_curr_ := s.map_img_ori_small_.copyTo s.map_img_pos_curr_
  -- center of the robot on the map
  let x_map_center : ℚ :=
    fp.div (fp.mul (fp.sub req.x (s.map_origin_.getD INDEX_X 0)) s.resize_ratio_curr_)
      s.map_resolution_
  let y_map_center : ℚ :=
    fp.sub (fp.ofInt map_img_pos_curr_.rows)
      (fp.mul (fp.div (fp.sub req.y (s.map_origin_.getD INDEX_Y 0)) s.map_resolution_)
        s.resize_ratio_curr_)
  let point_curr_ : Point := ⟨fp.toInt x_map_center, fp.toInt y_map_center⟩
  -- arrow tip that represents the robot orientation on the map
  let x_map_tip : ℚ := fp.add x_map_center (fp.mul (fp.ofInt ARROW_LENGTH) (lm.cos req.theta))
  let y_map_tip : ℚ := fp.sub y_map_center (fp.mul (fp.ofInt ARROW_LENGTH) (lm.sin req.theta))
  let point_tip_ : Point := ⟨fp.toInt x_map_tip, fp.toInt y_map_tip⟩
  -- draw
  let map_img_pos_curr_ := Mat.circle map_img_pos_curr_ point_curr_ 2 RED 3
  let map_img_pos_curr_ := Mat.line map_img_pos_curr_ point_curr_ point_tip_ RED 2
  -- all pos history
  let map_img_pos_hist_ := Mat.circle s.map_img_pos_hist_ point_curr_ 2 RED 3
  let map_img_pos_hist_ := Mat.line map_img_pos_hist_ point_curr_ point_tip_ RED 2
  { s with
    point_curr_ := point_curr_
    point_tip_ := point_tip_
    map_img_pos_curr_ := map_img_pos_curr_
    map_img_pos_hist_ := map_img_pos_hist_ }

/-- Member function `WaitKeyJudge` on the arithmetic `fp`, with `cv::resize`
as the library call that may raise: the returned `int` and the server
afterwards, `none` where the call of `cv::resize` raises and `WaitKeyJudge`
does not return. -/
def WaitKeyJudgeWith (fp : Fpu) (lm : Libm) (s : Server) (i_key : Int) : Option (Int × Server) :=
  -- current pose
  if i_key = 99 ∨ i_key = 67 then
    some (CURR_POSITON, s)
  -- history of pose
  else if i_key = 104 ∨ i_key = 72 then
    some (HISTORY_POSITION, s)
  -- reset history
  else if i_key = 114 ∨ i_key = 82 then
    let map_img_pos_hist_ := s.map_img_ori_small_.copyTo s.map_img_pos_hist_
    let map_img_pos_hist_ := Mat.circle map_img_pos_hist_ s.point_curr_ 2 RED 3
    let map_img_pos_hist_ := Mat.line map_img_pos_hist_ s.point_curr_ s.point_tip_ RED 2
    -- keep original state
    some (s.state_, { s with map_img_pos_hist_ := map_img_pos_hist_ })
  -- zoom
  else if i_key = 112 ∨ i_key = 80 then
    let s1 := { s with
      resize_ratio_prev_ := s.resize_ratio_curr_
      resize_ratio_curr_ := fp.add s.resize_ratio_curr_ 0.05 }
    let ret := s1.state_
    match cvResize s1.map_img_ori_ s1.resize_ratio_curr_ s1.resize_ratio_curr_ with
    | none => none
    | some small =>
      let s2 := { s1 with
        map_img_ori_small_ := small
        map_img_pos_curr_ := small.clone
        map_img_pos_hist_ := small.clone }
      some (ret, DrawPosOnMapWith fp lm s2 s2.req_)
  -- fade
  else if i_key = 109 ∨ i_key = 77 then
    let s1 := { s with
      resize_ratio_prev_ := s.resize_ratio_curr_
      resize_ratio_curr_ := fp.sub s.resize_ratio_curr_ 0.05 }
    let ret := s1.state_
    match cvResize s1.map_img_ori_ s1.resize_ratio_curr_ s1.resize_ratio_curr_ with
    | none => none
    | some small =>
      let s2 := { s1 with
        map_img_ori_small_ := small
        map_img_pos_curr_ := small.clone
        map_img_pos_hist_ := small.clone }
      some (ret, DrawPosOnMapWith fp lm s2 s2.req_)
  -- Esc or q
  else if i_key = 27 ∨ i_key = 113 ∨ i_key = 81 then
    some (QUIT, s)
  else
    -- do nothing: `ret = true`, and `true` converts to the `int` 1
    some (1, s)

/-! ## Reading aids for the statements -/

/-- One robot marker as the source draws it: a circle of radius 2 and
thickness 3 at the centre, then a line of thickness 2 from the centre to the
tip, both red. -/
def drawMarker (img : Mat) (center tip : Point) : Mat :=
  Mat.line (Mat.circle img center 2 RED 3) center tip RED 2

/-- Centre of a pose on a map of `height` rows, section 4.1 of the
specification, converted to integer pixel coordinates. -/
def projectCenter (origin : List ℚ) (resolution zoom : ℚ) (height : Int) (pose : Request) :
    Point :=
  Point.ofDouble ((pose.x - origin.getD 0 0) * zoom / resolution)
    ((height : ℚ) - (pose.y - origin.getD 1 0) / resolution * zoom)

/-- Arrow tip of a pose on a map of `height` rows, section 4.1 of the
specification, converted to integer pixel coordinates. -/
def projectTip (lm : Libm) (origin : List ℚ) (resolution zoom : ℚ) (height : Int)
    (pose : Request) : Point :=
  Point.ofDouble
    ((pose.x - origin.getD 0 0) * zoom / resolution + (ARROW_LENGTH : ℚ) * lm.cos pose.theta)
    ((height : ℚ) - (pose.y - origin.getD 1 0) / resolution * zoom
      - (ARROW_LENGTH : ℚ) * lm.sin pose.theta)

/-- Markers on a buffer, oldest first: every line drawn right after a circle
counts as one marker (circle centre, end of the line). -/
def Mat.markers : Mat → List (Point × Point)
  | .empty => []
  | .decoded _ _ _ => []
  | .resize _ _ _ => []
  | .circle img _ _ _ _ => img.markers
  | .line (.circle img c _ _ _) _ t _ _ => img.markers ++ [(c, t)]
  | .line img _ _ _ _ => img.markers

/-- Marker of `pose` for the zoom ratio and the scaled map of the server
`s`: centre and tip. -/
def markerOf (lm : Libm) (s : Server) (pose : Request) : Point × Point :=
  (projectCenter s.map_origin_ s.map_resolution_ s.resize_ratio_curr_
      s.map_img_ori_small_.rows pose,
    projectTip lm s.map_origin_ s.map_resolution_ s.resize_ratio_curr_
      s.map_img_ori_small_.rows pose)

/-- One input handled during a pass of the loop in `RunMainLoop`: a key code
returned by `cv::waitKey`, or a service request dispatched by
`ros::spinOnce`. -/
inductive Event where
  | key (code : Int) : Event
  | pose (req : Request) : Event
deriving DecidableEq, Repr

/-- Handling of one input: a key goes through `state_ = WaitKeyJudge(key)`
when it is not negative, a request goes through `getPos`. -/
def deliver (lm : Libm) (s : Server) : Event → Server
  | .key code => if 0 ≤ code then handleKey lm s code else s
  | .pose req => (getPos lm s req).2

/-- Handling of a sequence of inputs, in order. -/
def deliverAll (lm : Libm) (s : Server) (events : List Event) : Server :=
  events.foldl (deliver lm) s

/-- The pose ingested last: `seen` before the event, the request after a
pose update. -/
def notePose (seen : Option Request) : Event → Option Request
  | .key _ => seen
  | .pose req => some req

/-- The pose ingested last in a sequence of inputs, `none` when the sequence
holds no pose update. -/
def lastPose (events : List Event) : Option Request :=
  events.foldl notePose none

/-- The stored request is `pose` and the stored points are its marker for
the present zoom ratio and scaled map. -/
def Synced (lm : Libm) (s : Server) (pose : Request) : Prop :=
  s.req_ = pose ∧ s.point_curr_ = (markerOf lm s pose).1 ∧ s.point_tip_ = (markerOf lm s pose).2

/-- Server after the key handling of one pass of the loop. -/
def afterKey (lm : Libm) (s : Server) (t : Tick) : Server :=
  if 0 ≤ t.key then handleKey lm s t.key else s

/-- Markers drawn over a buffer, first to last. -/
def drawAll (img : Mat) (marks : List (Point × Point)) : Mat :=
  marks.foldl (fun acc m => drawMarker acc m.1 m.2) img

/-- The scaled map is the original resized at the present zoom ratio, and
each view is that scaled map with markers drawn over it and nothing else. -/
def Fresh (s : Server) : Prop :=
  s.map_img_ori_small_ = Mat.resize s.map_img_ori_ s.resize_ratio_curr_ s.resize_ratio_curr_
    ∧ (∃ marks, s.map_img_pos_curr_ = drawAll s.map_img_ori_small_ marks)
    ∧ (∃ marks, s.map_img_pos_hist_ = drawAll s.map_img_ori_small_ marks)

/-- Rational stand-in for the C library, used to evaluate the model on
concrete inputs: the Taylor polynomials of degree four and five. -/
def lmPoly : Libm :=
  { cos := fun t => 1 - t ^ 2 / 2 + t ^ 4 / 24
    sin := fun t => t - t ^ 3 / 6 + t ^ 5 / 120 }

/-- Parameter server with resolution 1/2, zoom ratio 1/2 and origin
(-1, -2, 0). -/
def sampleStore : ParamStore :=
  { ratio := some (1 / 2), resolution := some (1 / 2), origin := [-1, -2, 0] }

/-- Decoded map file of 40 rows and 60 columns. -/
def sampleFile : Mat := Mat.decoded 40 60 []

/-- Server right after construction and a successful `LoadMapImage`. -/
def sampleServer : Server :=
  (LoadMapImage (construct sampleStore 0) sampleFile).2

/-! ## Key handling -/

/-- The sample server written out. -/
theorem sampleServer_eq :
    sampleServer =
      { resize_ratio_curr_ := 1 / 2
        resize_ratio_prev_ := 0
        map_resolution_ := 1 / 2
        map_origin_ := [-1, -2, 0]
        point_curr_ := ⟨0, 0⟩
        point_tip_ := ⟨0, 0⟩
        map_img_ori_ := Mat.decoded 40 60 []
        map_img_ori_small_ := Mat.resize (Mat.decoded 40 60 []) (1 / 2) (1 / 2)
        map_img_pos_curr_ := Mat.resize (Mat.decoded 40 60 []) (1 / 2) (1 / 2)
        map_img_pos_hist_ := Mat.resize (Mat.decoded 40 60 []) (1 / 2) (1 / 2)
        req_ := ⟨0, 0, 0⟩
        state_ := 0 } := by
  simp [sampleServer, LoadMapImage, construct, sampleStore, sampleFile, Mat.rows, Mat.cols,
    Mat.clone, CURR_POSITON]

/-- A key that no branch of `WaitKeyJudge` names leaves every member but
`state_` alone and stores 1 in `state_`. -/
theorem handleKey_unnamed (lm : Libm) (s : Server) (k : Int)
    (hc : k ≠ 99 ∧ k ≠ 67) (hh : k ≠ 104 ∧ k ≠ 72) (hr : k ≠ 114 ∧ k ≠ 82)
    (hp : k ≠ 112 ∧ k ≠ 80) (hm : k ≠ 109 ∧ k ≠ 77) (hq : k ≠ 27 ∧ k ≠ 113 ∧ k ≠ 81) :
    handleKey lm s k = { s with state_ := 1 } := by
  simp [handleKey, WaitKeyJudge, hc.1, hc.2, hh.1, hh.2, hr.1, hr.2, hp.1, hp.2, hm.1, hm.2,
    hq.1, hq.2.1, hq.2.2]

/-- C1, evaluated on the code: the key x (code 120) is none of the named
keys, and handling it the way the render loop does stores `HISTORY_POSITION`
in `state_` whatever the view mode was; from `CURR_POSITON` the view mode
changes, the other members stay as they were. -/
theorem C1_unnamed_key_selects_history :
    (∀ (lm : Libm) (s : Server), handleKey lm s 120 = { s with state_ := HISTORY_POSITION })
      ∧ sampleServer.state_ = CURR_POSITON
      ∧ (handleKey lmPoly sampleServer 120).state_ = HISTORY_POSITION
      ∧ (handleKey lmPoly sampleServer 120).state_ ≠ sampleServer.state_ := by
  refine ⟨fun lm s => ?_, rfl, ?_, ?_⟩
  · rw [handleKey_unnamed lm s 120 (by decide) (by decide) (by decide) (by decide) (by decide)
      (by decide)]
    rfl
  · rw [handleKey_unnamed lmPoly sampleServer 120 (by decide) (by decide) (by decide)
      (by decide) (by decide) (by decide)]
    rfl
  · rw [handleKey_unnamed lmPoly sampleServer 120 (by decide) (by decide) (by decide)
      (by decide) (by decide) (by decide)]
    decide

/-- C2: for every server state, `WaitKeyJudge` returns `CURR_POSITON` for c
and C, `HISTORY_POSITION` for h and H, `QUIT` for Esc, q and Q, and hands
the server back unchanged. -/
theorem C2_mode_keys (lm : Libm) (s : Server) :
    WaitKeyJudge lm s 99 = (CURR_POSITON, s) ∧ WaitKeyJudge lm s 67 = (CURR_POSITON, s)
      ∧ WaitKeyJudge lm s 104 = (HISTORY_POSITION, s)
      ∧ WaitKeyJudge lm s 72 = (HISTORY_POSITION, s)
      ∧ WaitKeyJudge lm s 27 = (QUIT, s) ∧ WaitKeyJudge lm s 113 = (QUIT, s)
      ∧ WaitKeyJudge lm s 81 = (QUIT, s) := by
  refine ⟨?_, ?_, ?_, ?_, ?_, ?_, ?_⟩ <;> simp [WaitKeyJudge]

/-- Zoom values and return value of a zoom key whose call of `cv::resize`
returned. -/
theorem zoom_ratio_fields (lm : Libm) (s : Server) :
    ((WaitKeyJudge lm s 112).2.resize_ratio_curr_ = s.resize_ratio_curr_ + 0.05
        ∧ (WaitKeyJudge lm s 112).2.resize_ratio_prev_ = s.resize_ratio_curr_
        ∧ (WaitKeyJudge lm s 112).1 = s.state_)
      ∧ ((WaitKeyJudge lm s 80).2.resize_ratio_curr_ = s.resize_ratio_curr_ + 0.05
        ∧ (WaitKeyJudge lm s 80).2.resize_ratio_prev_ = s.resize_ratio_curr_
        ∧ (WaitKeyJudge lm s 80).1 = s.state_)
      ∧ ((WaitKeyJudge lm s 109).2.resize_ratio_curr_ = s.resize_ratio_curr_ - 0.05
        ∧ (WaitKeyJudge lm s 109).2.resize_ratio_prev_ = s.resize_ratio_curr_
        ∧ (WaitKeyJudge lm s 109).1 = s.state_)
      ∧ ((WaitKeyJudge lm s 77).2.resize_ratio_curr_ = s.resize_ratio_curr_ - 0.05
        ∧ (WaitKeyJudge lm s 77).2.resize_ratio_prev_ = s.resize_ratio_curr_
        ∧ (WaitKeyJudge lm s 77).1 = s.state_) := by
  refine ⟨?_, ?_, ?_, ?_⟩ <;> simp [WaitKeyJudge, DrawPosOnMap]

/-! ## Loading -/

/-- C10, evaluated on the code: for an image that could not be decoded
`LoadMapImage` returns `NG` and derives no buffer; for the 40 by 60 sample
image it derives the buffers and reaches the end of its body without a
`return` statement, so it yields no value, and `main` returns -1 when the
`int` it reads there is 1 (`NG`). -/
theorem C10_load_success_returns_no_value :
    (LoadMapImage (construct sampleStore 0) Mat.empty).1 = some NG
      ∧ (LoadMapImage (construct sampleStore 0) Mat.empty).2.map_img_ori_small_ = Mat.empty
      ∧ sampleFile.rows = 40 ∧ sampleFile.cols = 60
      ∧ (LoadMapImage (construct sampleStore 0) sampleFile).1 = none
      ∧ (LoadMapImage (construct sampleStore 0) sampleFile).2.map_img_ori_small_
          = Mat.resize sampleFile (1 / 2) (1 / 2)
      ∧ main lmPoly 3 sampleStore 0 sampleFile NG [] = some (-1) := by
  refine ⟨?_, ?_, rfl, rfl, ?_, ?_, ?_⟩ <;>
    simp [main, LoadMapImage, construct, sampleStore, sampleFile, Mat.rows, Mat.cols, NG]

/-! ## Pose updates and zoom -/

theorem markers_drawMarker (img : Mat) (c t : Point) :
    (drawMarker img c t).markers = img.markers ++ [(c, t)] := by
  simp [drawMarker, Mat.markers]

/-- What one call of `getPos` does to the server: it stores the request and
the two projected points, replaces the current view by the scaled map with
the new marker, and draws the new marker over the history view. -/
theorem getPos_eq (lm : Libm) (s : Server) (req : Request) :
    (getPos lm s req).2 =
      { s with
        req_ := req
        point_curr_ := (markerOf lm s req).1
        point_tip_ := (markerOf lm s req).2
        map_img_pos_curr_ :=
          drawMarker s.map_img_ori_small_ (markerOf lm s req).1 (markerOf lm s req).2
        map_img_pos_hist_ :=
          drawMarker s.map_img_pos_hist_ (markerOf lm s req).1 (markerOf lm s req).2 } := by
  simp [getPos, DrawPosOnMap, markerOf, projectCenter, projectTip, drawMarker, Mat.copyTo,
    INDEX_X, INDEX_Y]

/-- Members that no pose update writes. -/
theorem spinOnce_frame (lm : Libm) (calls : List Request) (s : Server) :
    (spinOnce lm s calls).resize_ratio_curr_ = s.resize_ratio_curr_
      ∧ (spinOnce lm s calls).resize_ratio_prev_ = s.resize_ratio_prev_
      ∧ (spinOnce lm s calls).map_resolution_ = s.map_resolution_
      ∧ (spinOnce lm s calls).map_origin_ = s.map_origin_
      ∧ (spinOnce lm s calls).map_img_ori_ = s.map_img_ori_
      ∧ (spinOnce lm s calls).map_img_ori_small_ = s.map_img_ori_small_
      ∧ (spinOnce lm s calls).state_ = s.state_ := by
  induction calls generalizing s with
  | nil => simp [spinOnce]
  | cons req rest ih =>
    have h := ih (getPos lm s req).2
    simp only [spinOnce, List.foldl_cons] at h ⊢
    rw [getPos_eq] at h ⊢
    exact h

theorem markerOf_spinOnce (lm : Libm) (s : Server) (calls : List Request) (pose : Request) :
    markerOf lm (spinOnce lm s calls) pose = markerOf lm s pose := by
  obtain ⟨h1, _, h3, h4, _, h6, _⟩ := spinOnce_frame lm calls s
  simp [markerOf, h1, h3, h4, h6]

/-- C5: M consecutive pose updates draw M markers over the history view, one
per update in arrival order; the markers it held before stay in place, so a
view with k markers holds k + M afterwards. -/
theorem C5_history_accumulates (lm : Libm) (s : Server) (poses : List Request) :
    (spinOnce lm s poses).map_img_pos_hist_
        = (poses.map (markerOf lm s)).foldl (fun img m => drawMarker img m.1 m.2)
            s.map_img_pos_hist_
      ∧ (spinOnce lm s poses).map_img_pos_hist_.markers
        = s.map_img_pos_hist_.markers ++ poses.map (markerOf lm s)
      ∧ (spinOnce lm s poses).map_img_pos_hist_.markers.length
        = s.map_img_pos_hist_.markers.length + poses.length := by
  have key : ∀ (ps : List Request) (t : Server),
      (spinOnce lm t ps).map_img_pos_hist_
          = (ps.map (markerOf lm t)).foldl (fun img m => drawMarker img m.1 m.2)
              t.map_img_pos_hist_
        ∧ (spinOnce lm t ps).map_img_pos_hist_.markers
          = t.map_img_pos_hist_.markers ++ ps.map (markerOf lm t) := by
    intro ps
    induction ps with
    | nil => intro t; simp [spinOnce]
    | cons req rest ih =>
      intro t
      have h := ih (getPos lm t req).2
      have hm : ∀ q, markerOf lm (getPos lm t req).2 q = markerOf lm t q := fun q =>
        markerOf_spinOnce lm t [req] q
      have hfun : markerOf lm (getPos lm t req).2 = markerOf lm t := funext hm
      rw [hfun] at h
      have hh : (getPos lm t req).2.map_img_pos_hist_
          = drawMarker t.map_img_pos_hist_ (markerOf lm t req).1 (markerOf lm t req).2 := by
        rw [getPos_eq]
      rw [hh] at h
      constructor
      · simpa [spinOnce] using h.1
      · have h2 := h.2
        rw [markers_drawMarker] at h2
        simpa [spinOnce] using h2
  obtain ⟨h1, h2⟩ := key poses s
  refine ⟨h1, h2, ?_⟩
  rw [h2]
  simp

/-! ## Reset -/

theorem synced_getPos (lm : Libm) (s : Server) (req : Request) :
    Synced lm (getPos lm s req).2 req := by
  rw [getPos_eq]
  simp [Synced, markerOf]

/-- Every key handled by the loop keeps the stored points in step with the
stored request. -/
theorem synced_handleKey (lm : Libm) (s : Server) (pose : Request) (k : Int)
    (h : Synced lm s pose) : Synced lm (handleKey lm s k) pose := by
  obtain ⟨h1, h2, h3⟩ := h
  unfold handleKey WaitKeyJudge
  split_ifs
  · exact ⟨h1, h2, h3⟩
  · exact ⟨h1, h2, h3⟩
  · exact ⟨h1, h2, h3⟩
  · simp [Synced, markerOf, DrawPosOnMap, projectCenter, projectTip, Mat.copyTo, Mat.clone,
      INDEX_X, INDEX_Y, h1]
  · simp [Synced, markerOf, DrawPosOnMap, projectCenter, projectTip, Mat.copyTo, Mat.clone,
      INDEX_X, INDEX_Y, h1]
  · exact ⟨h1, h2, h3⟩
  · exact ⟨h1, h2, h3⟩

theorem synced_deliverAll (lm : Libm) (events : List Event) (s : Server) (seen : Option Request)
    (h : ∀ p, seen = some p → Synced lm s p) :
    ∀ p, events.foldl notePose seen = some p → Synced lm (deliverAll lm s events) p := by
  induction events generalizing s seen with
  | nil => simpa [deliverAll] using h
  | cons e rest ih =>
    intro p hp
    simp only [List.foldl_cons] at hp
    simp only [deliverAll, List.foldl_cons]
    refine ih (deliver lm s e) (notePose seen e) ?_ p hp
    intro q hq
    cases e with
    | key code =>
      simp only [notePose] at hq
      simp only [deliver]
      split_ifs
      · exact synced_handleKey lm s q code (h q hq)
      · exact h q hq
    | pose req =>
      simp only [notePose, Option.some.injEq] at hq
      subst hq
      exact synced_getPos lm s req

/-- C4: after any sequence of keys and pose updates with at least one pose
update, `pose` being the last one ingested, r and R return the view mode
they found and change only the history view, which becomes the scaled map
with the marker of `pose` at the present zoom ratio and no other marker. -/
theorem C4_reset_keeps_only_last_marker (lm : Libm) (s : Server) (events : List Event)
    (pose : Request) (h : lastPose events = some pose) :
    WaitKeyJudge lm (deliverAll lm s events) 114
        = ((deliverAll lm s events).state_,
            { deliverAll lm s events with
              map_img_pos_hist_ :=
                drawMarker (deliverAll lm s events).map_img_ori_small_
                  (markerOf lm (deliverAll lm s events) pose).1
                  (markerOf lm (deliverAll lm s events) pose).2 })
      ∧ WaitKeyJudge lm (deliverAll lm s events) 82
        = ((deliverAll lm s events).state_,
            { deliverAll lm s events with
              map_img_pos_hist_ :=
                drawMarker (deliverAll lm s events).map_img_ori_small_
                  (markerOf lm (deliverAll lm s events) pose).1
                  (markerOf lm (deliverAll lm s events) pose).2 })
      ∧ (drawMarker (deliverAll lm s events).map_img_ori_small_
            (markerOf lm (deliverAll lm s events) pose).1
            (markerOf lm (deliverAll lm s events) pose).2).markers
        = (deliverAll lm s events).map_img_ori_small_.markers
            ++ [markerOf lm (deliverAll lm s events) pose] := by
  obtain ⟨_, h2, h3⟩ := synced_deliverAll lm events s none (by simp) pose h
  refine ⟨?_, ?_, ?_⟩
  · simp [WaitKeyJudge, drawMarker, Mat.copyTo, ← h2, ← h3]
  · simp [WaitKeyJudge, drawMarker, Mat.copyTo, ← h2, ← h3]
  · rw [markers_drawMarker]

/-- Witness of C4: one pose update, a zoom, then r on the sample server. -/
theorem C4_reset_keeps_only_last_marker_witness :
    lastPose [Event.pose ⟨3, 4, 0⟩, Event.key 112] = some ⟨3, 4, 0⟩
      ∧ WaitKeyJudge lmPoly
          (deliverAll lmPoly sampleServer [Event.pose ⟨3, 4, 0⟩, Event.key 112]) 114
        = ((deliverAll lmPoly sampleServer [Event.pose ⟨3, 4, 0⟩, Event.key 112]).state_,
            { deliverAll lmPoly sampleServer [Event.pose ⟨3, 4, 0⟩, Event.key 112] with
              map_img_pos_hist_ :=
                drawMarker
                  (deliverAll lmPoly sampleServer
                    [Event.pose ⟨3, 4, 0⟩, Event.key 112]).map_img_ori_small_
                  (markerOf lmPoly
                    (deliverAll lmPoly sampleServer [Event.pose ⟨3, 4, 0⟩, Event.key 112])
                    ⟨3, 4, 0⟩).1
                  (markerOf lmPoly
                    (deliverAll lmPoly sampleServer [Event.pose ⟨3, 4, 0⟩, Event.key 112])
                    ⟨3, 4, 0⟩).2 }) :=
  ⟨rfl,
    (C4_reset_keeps_only_last_marker lmPoly sampleServer [Event.pose ⟨3, 4, 0⟩, Event.key 112]
      ⟨3, 4, 0⟩ rfl).1⟩

/-! ## The render loop -/

theorem spinOnce_state (lm : Libm) (s : Server) (calls : List Request) :
    (spinOnce lm s calls).state_ = s.state_ :=
  (spinOnce_frame lm calls s).2.2.2.2.2.2

/-- One pass of the loop, written with `afterKey`. -/
theorem RunMainLoopFrom_cons (lm : Libm) (s : Server) (shown : List Mat) (t : Tick)
    (rest : List Tick) :
    RunMainLoopFrom lm s shown (t :: rest)
      = if t.ok = false then ⟨true, s, shown⟩
        else if (afterKey lm s t).state_ = QUIT then ⟨true, afterKey lm s t, shown⟩
        else RunMainLoopFrom lm (spinOnce lm (afterKey lm s t) t.calls)
          (shown ++ [ShowMap (afterKey lm s t)]) rest := rfl

/-- Once the loop is left, later passes are not run. -/
theorem loop_exit_stable (lm : Libm) (ticks more : List Tick) (s : Server) (shown : List Mat)
    (h : (RunMainLoopFrom lm s shown ticks).exited = true) :
    RunMainLoopFrom lm s shown (ticks ++ more) = RunMainLoopFrom lm s shown ticks := by
  induction ticks generalizing s shown with
  | nil => simp [RunMainLoopFrom] at h
  | cons t rest ih =>
    simp only [List.cons_append, RunMainLoopFrom_cons] at h ⊢
    split_ifs at h ⊢ with h1 h2
    · rfl
    · rfl
    · exact ih _ _ h

/-- A loop entered in a view mode other than `QUIT` holds `QUIT` only after
it was left. -/
theorem loop_quit_exited (lm : Libm) (ticks : List Tick) (s : Server) (shown : List Mat)
    (h0 : s.state_ ≠ QUIT) (hq : (RunMainLoopFrom lm s shown ticks).srv.state_ = QUIT) :
    (RunMainLoopFrom lm s shown ticks).exited = true := by
  induction ticks generalizing s shown with
  | nil => exact absurd (by simpa [RunMainLoopFrom] using hq) h0
  | cons t rest ih =>
    rw [RunMainLoopFrom_cons] at hq ⊢
    split_ifs at hq ⊢ with h1 h2
    · rfl
    · rfl
    · refine ih _ _ ?_ hq
      rw [spinOnce_state]
      exact h2

/-- C7: `RunMainLoop` is entered in a view mode other than `QUIT`; once its
view mode is `QUIT`, whatever keys and pose updates arrive in later passes,
the outcome is the same: the view mode stays `QUIT` and no member of the
server and no displayed buffer changes. -/
theorem C7_quit_absorbing (lm : Libm) (s : Server) (ticks more : List Tick)
    (h0 : s.state_ ≠ QUIT) (hq : (RunMainLoop lm s ticks).srv.state_ = QUIT) :
    RunMainLoop lm s (ticks ++ more) = RunMainLoop lm s ticks
      ∧ (RunMainLoop lm s (ticks ++ more)).srv.state_ = QUIT := by
  have he := loop_quit_exited lm ticks s [] h0 hq
  have hs : RunMainLoop lm s (ticks ++ more) = RunMainLoop lm s ticks :=
    loop_exit_stable lm ticks more s [] he
  exact ⟨hs, by rw [hs]; exact hq⟩

/-- Witness of C7: q in the first pass, then a pass with the key c and a
pose update. -/
theorem C7_quit_absorbing_witness :
    sampleServer.state_ ≠ QUIT
      ∧ (RunMainLoop lmPoly sampleServer [⟨true, 113, []⟩]).srv.state_ = QUIT
      ∧ RunMainLoop lmPoly sampleServer ([⟨true, 113, []⟩] ++ [⟨true, 99, [⟨1, 1, 0⟩]⟩])
        = RunMainLoop lmPoly sampleServer [⟨true, 113, []⟩] :=
  ⟨by simp [sampleServer_eq, QUIT],
    by simp [RunMainLoop, RunMainLoopFrom, handleKey, WaitKeyJudge, QUIT],
    (C7_quit_absorbing lmPoly sampleServer [⟨true, 113, []⟩] [⟨true, 99, [⟨1, 1, 0⟩]⟩]
      (by simp [sampleServer_eq, QUIT])
      (by simp [RunMainLoop, RunMainLoopFrom, handleKey, WaitKeyJudge, QUIT])).1⟩

/-- C14: after a pose update the current view is the scaled map with one
marker drawn over it, the marker of the pose just ingested; what the
current view held before is gone. On a scaled map that is a resized
original the current view then holds exactly that one marker. -/
theorem C14_current_view_single_marker (lm : Libm) (s : Server) (req : Request) :
    (getPos lm s req).2.map_img_pos_curr_
        = drawMarker s.map_img_ori_small_ (markerOf lm s req).1 (markerOf lm s req).2
      ∧ (getPos lm s req).2.map_img_ori_small_ = s.map_img_ori_small_
      ∧ (getPos lm s req).2.map_img_pos_curr_.markers
        = s.map_img_ori_small_.markers ++ [markerOf lm s req]
      ∧ ∀ zoom : ℚ,
          (getPos lm { s with map_img_ori_small_ := Mat.resize s.map_img_ori_ zoom zoom }
              req).2.map_img_pos_curr_.markers
            = [markerOf lm { s with map_img_ori_small_ := Mat.resize s.map_img_ori_ zoom zoom }
                req] := by
  refine ⟨?_, ?_, ?_, fun zoom => ?_⟩
  · rw [getPos_eq]
  · rw [getPos_eq]
  · rw [getPos_eq]
    simp [markers_drawMarker]
  · rw [getPos_eq]
    simp [markers_drawMarker, Mat.markers]

/-- C15: `getPos` returns true for every request and stores the request in
`req_`, whatever was stored before. -/
theorem C15_getPos_accepts (lm : Libm) (s : Server) (req : Request) :
    (getPos lm s req).1 = true ∧ (getPos lm s req).2.req_ = req := by
  simp [getPos, DrawPosOnMap]

/-- C17: `ShowMap` picks the buffer from `state_` alone: the history view
for `HISTORY_POSITION`, the current view for `CURR_POSITON` and for every
other value. -/
theorem C17_ShowMap_selection (s : Server) :
    ShowMap s
        = (if s.state_ = HISTORY_POSITION then s.map_img_pos_hist_ else s.map_img_pos_curr_)
      ∧ ShowMap { s with state_ := CURR_POSITON } = s.map_img_pos_curr_
      ∧ ShowMap { s with state_ := HISTORY_POSITION } = s.map_img_pos_hist_
      ∧ ShowMap { s with state_ := QUIT } = s.map_img_pos_curr_ := by
  refine ⟨?_, ?_, ?_, ?_⟩
  · unfold ShowMap
    split_ifs with h1 h2
    · rw [h1] at h2
      exact absurd h2 (by decide)
    · rfl
    · rfl
    · rfl
  · simp [ShowMap]
  · simp [ShowMap, HISTORY_POSITION, CURR_POSITON]
  · simp [ShowMap, HISTORY_POSITION, CURR_POSITON, QUIT]

/-- C18: handling c or C a second time changes nothing: the server and the
displayed buffer are those after the first time. -/
theorem C18_select_current_idempotent (lm : Libm) (s : Server) :
    handleKey lm (handleKey lm s 99) 99 = handleKey lm s 99
      ∧ handleKey lm (handleKey lm s 67) 67 = handleKey lm s 67
      ∧ handleKey lm (handleKey lm s 99) 67 = handleKey lm s 99
      ∧ ShowMap (handleKey lm (handleKey lm s 99) 99) = ShowMap (handleKey lm s 99)
      ∧ ShowMap (handleKey lm (handleKey lm s 67) 67) = ShowMap (handleKey lm s 67)
      ∧ ShowMap (handleKey lm s 99) = s.map_img_pos_curr_ := by
  refine ⟨?_, ?_, ?_, ?_, ?_, ?_⟩ <;> simp [handleKey, WaitKeyJudge, ShowMap]

/-! ## Buffers follow the zoom ratio -/

theorem drawAll_snoc (img : Mat) (marks : List (Point × Point)) (m : Point × Point) :
    drawAll img (marks ++ [m]) = drawMarker (drawAll img marks) m.1 m.2 := by
  simp [drawAll, List.foldl_append]

theorem fresh_load (s0 : Server) (file : Mat) (hr : file.rows ≠ 0) (hc : file.cols ≠ 0) :
    Fresh (LoadMapImage s0 file).2 := by
  simp only [LoadMapImage, hr, hc, or_self, if_false]
  exact ⟨rfl, ⟨[], rfl⟩, ⟨[], rfl⟩⟩

theorem fresh_getPos (lm : Libm) (s : Server) (req : Request) (h : Fresh s) :
    Fresh (getPos lm s req).2 := by
  obtain ⟨h1, _, ⟨mh, h3⟩⟩ := h
  rw [getPos_eq]
  refine ⟨h1, ⟨[markerOf lm s req], rfl⟩, ⟨mh ++ [markerOf lm s req], ?_⟩⟩
  rw [drawAll_snoc]
  simp only [h3]

theorem fresh_handleKey (lm : Libm) (s : Server) (k : Int) (h : Fresh s) :
    Fresh (handleKey lm s k) := by
  obtain ⟨h1, h2, h3⟩ := h
  unfold handleKey WaitKeyJudge
  split_ifs
  · exact ⟨h1, h2, h3⟩
  · exact ⟨h1, h2, h3⟩
  · exact ⟨h1, h2, ⟨[(s.point_curr_, s.point_tip_)], rfl⟩⟩
  · exact ⟨rfl, ⟨[(_, _)], rfl⟩, ⟨[(_, _)], rfl⟩⟩
  · exact ⟨rfl, ⟨[(_, _)], rfl⟩, ⟨[(_, _)], rfl⟩⟩
  · exact ⟨h1, h2, h3⟩
  · exact ⟨h1, h2, h3⟩

theorem fresh_deliverAll (lm : Libm) (events : List Event) (s : Server) (h : Fresh s) :
    Fresh (deliverAll lm s events) := by
  induction events generalizing s with
  | nil => exact h
  | cons e rest ih =>
    simp only [deliverAll, List.foldl_cons]
    refine ih _ ?_
    cases e with
    | key code =>
      simp only [deliver]
      split_ifs
      · exact fresh_handleKey lm s code h
      · exact h
    | pose req => exact fresh_getPos lm s req h

/-- Members that no key writes. -/
theorem handleKey_frame (lm : Libm) (s : Server) (k : Int) :
    (handleKey lm s k).map_img_ori_ = s.map_img_ori_
      ∧ (handleKey lm s k).map_origin_ = s.map_origin_
      ∧ (handleKey lm s k).map_resolution_ = s.map_resolution_
      ∧ (handleKey lm s k).req_ = s.req_ := by
  unfold handleKey WaitKeyJudge
  split_ifs <;> exact ⟨rfl, rfl, rfl, rfl⟩

/-- Members that no input writes. -/
theorem deliverAll_frame (lm : Libm) (events : List Event) (s : Server) :
    (deliverAll lm s events).map_img_ori_ = s.map_img_ori_
      ∧ (deliverAll lm s events).map_origin_ = s.map_origin_
      ∧ (deliverAll lm s events).map_resolution_ = s.map_resolution_ := by
  induction events generalizing s with
  | nil => exact ⟨rfl, rfl, rfl⟩
  | cons e rest ih =>
    simp only [deliverAll, List.foldl_cons]
    have h := ih (deliver lm s e)
    simp only [deliverAll] at h
    have hstep : (deliver lm s e).map_img_ori_ = s.map_img_ori_
        ∧ (deliver lm s e).map_origin_ = s.map_origin_
        ∧ (deliver lm s e).map_resolution_ = s.map_resolution_ := by
      cases e with
      | key code =>
        simp only [deliver]
        split_ifs
        · obtain ⟨a, b, c, _⟩ := handleKey_frame lm s code
          exact ⟨a, b, c⟩
        · exact ⟨rfl, rfl, rfl⟩
      | pose req =>
        simp only [deliver]
        rw [getPos_eq]
        exact ⟨rfl, rfl, rfl⟩
    rw [hstep.1, hstep.2.1, hstep.2.2] at h
    exact h

theorem load_ori (s0 : Server) (file : Mat) : (LoadMapImage s0 file).2.map_img_ori_ = file := by
  simp only [LoadMapImage]
  split_ifs <;> rfl

/-- Scaled map and views of a state reached from a successful load. -/
theorem loaded_run_fresh (lm : Libm) (s0 : Server) (file : Mat)
    (events : List Event) (hr : file.rows ≠ 0) (hc : file.cols ≠ 0) :
    (deliverAll lm (LoadMapImage s0 file).2 events).map_img_ori_ = file
      ∧ (deliverAll lm (LoadMapImage s0 file).2 events).map_img_ori_small_
        = Mat.resize file
            (deliverAll lm (LoadMapImage s0 file).2 events).resize_ratio_curr_
            (deliverAll lm (LoadMapImage s0 file).2 events).resize_ratio_curr_
      ∧ Fresh (deliverAll lm (LoadMapImage s0 file).2 events) := by
  have hori : (deliverAll lm (LoadMapImage s0 file).2 events).map_img_ori_ = file := by
    rw [(deliverAll_frame lm events _).1, load_ori]
  have hf := fresh_deliverAll lm events _ (fresh_load s0 file hr hc)
  have h1 := hf.1
  rw [hori] at h1
  exact ⟨hori, h1, hf⟩

/-- C13: in every state reached from a successful `LoadMapImage` by keys and
pose updates, the scaled map is the decoded file resized at the present
zoom ratio, and the current view and the history view are that scaled map
with markers drawn over it. -/
theorem C13_views_on_current_scale (lm : Libm) (s0 : Server) (file : Mat) (events : List Event)
    (hr : file.rows ≠ 0) (hc : file.cols ≠ 0) :
    (deliverAll lm (LoadMapImage s0 file).2 events).map_img_ori_ = file
      ∧ (deliverAll lm (LoadMapImage s0 file).2 events).map_img_ori_small_
        = Mat.resize file
            (deliverAll lm (LoadMapImage s0 file).2 events).resize_ratio_curr_
            (deliverAll lm (LoadMapImage s0 file).2 events).resize_ratio_curr_
      ∧ (∃ marks, (deliverAll lm (LoadMapImage s0 file).2 events).map_img_pos_curr_
          = drawAll (deliverAll lm (LoadMapImage s0 file).2 events).map_img_ori_small_ marks)
      ∧ (∃ marks, (deliverAll lm (LoadMapImage s0 file).2 events).map_img_pos_hist_
          = drawAll (deliverAll lm (LoadMapImage s0 file).2 events).map_img_ori_small_
              marks) := by
  have hori : (deliverAll lm (LoadMapImage s0 file).2 events).map_img_ori_ = file := by
    rw [(deliverAll_frame lm events _).1, load_ori]
  obtain ⟨h1, h2, h3⟩ := fresh_deliverAll lm events _ (fresh_load s0 file hr hc)
  rw [hori] at h1
  exact ⟨hori, h1, h2, h3⟩

/-- Witness of C13: a pose update, a zoom and a reset after loading the sample
file. -/
theorem C13_views_on_current_scale_witness :
    sampleFile.rows ≠ 0 ∧ sampleFile.cols ≠ 0
      ∧ (deliverAll lmPoly (LoadMapImage (construct sampleStore 0) sampleFile).2
            [Event.pose ⟨3, 4, 0⟩, Event.key 112, Event.key 114]).map_img_ori_small_
        = Mat.resize sampleFile
            (deliverAll lmPoly (LoadMapImage (construct sampleStore 0) sampleFile).2
              [Event.pose ⟨3, 4, 0⟩, Event.key 112, Event.key 114]).resize_ratio_curr_
            (deliverAll lmPoly (LoadMapImage (construct sampleStore 0) sampleFile).2
              [Event.pose ⟨3, 4, 0⟩, Event.key 112, Event.key 114]).resize_ratio_curr_ :=
  ⟨by decide, by decide,
    (C13_views_on_current_scale lmPoly (construct sampleStore 0) sampleFile
      [Event.pose ⟨3, 4, 0⟩, Event.key 112, Event.key 114] (by decide) (by decide)).2.1⟩

/-! ## The origin pose at zoom ratio 1 -/

theorem toInt_intCast (n : Int) : toInt (n : ℚ) = n := by
  unfold toInt
  split_ifs
  · exact Int.floor_intCast n
  · exact Int.ceil_intCast n

theorem cvRound_intCast (n : Int) : cvRound (n : ℚ) = n := by
  simp [cvRound]

theorem load_config (s0 : Server) (file : Mat) :
    (LoadMapImage s0 file).2.map_origin_ = s0.map_origin_
      ∧ (LoadMapImage s0 file).2.map_resolution_ = s0.map_resolution_ := by
  simp only [LoadMapImage]
  split_ifs <;> exact ⟨rfl, rfl⟩

/-- C16: in a state reached from a successful load whose zoom ratio is 1, the
pose at the map origin with heading 0 gets the stored centre
(0, rows of the map file). -/
theorem C16_origin_pose_at_unit_zoom (lm : Libm) (s0 : Server) (file : Mat)
    (events : List Event) (ox oy : ℚ) (rest : List ℚ)
    (ho : s0.map_origin_ = ox :: oy :: rest) (_hres : 0 < s0.map_resolution_)
    (hr : file.rows ≠ 0) (hc : file.cols ≠ 0)
    (hz : (deliverAll lm (LoadMapImage s0 file).2 events).resize_ratio_curr_ = 1) :
    (getPos lm (deliverAll lm (LoadMapImage s0 file).2 events) ⟨ox, oy, 0⟩).2.point_curr_
      = ⟨0, file.rows⟩ := by
  obtain ⟨_, hsmall, _⟩ := loaded_run_fresh lm s0 file events hr hc
  obtain ⟨_, horigin, _⟩ := deliverAll_frame lm events (LoadMapImage s0 file).2
  rw [(load_config s0 file).1, ho] at horigin
  rw [getPos_eq]
  simp only [markerOf, projectCenter, horigin, hsmall, hz, Mat.rows, Point.ofDouble]
  simp [cvRound_intCast, toInt_intCast]
  exact toInt_intCast 0

/-- Witness of C16: the sample file loaded at ratio 0.95, then the key p. -/
theorem C16_origin_pose_at_unit_zoom_witness :
    (getPos lmPoly
        (deliverAll lmPoly
          (LoadMapImage (construct ⟨some (19 / 20), some (1 / 2), [-1, -2, 0]⟩ 0) sampleFile).2
          [Event.key 112])
        ⟨-1, -2, 0⟩).2.point_curr_
      = ⟨0, sampleFile.rows⟩ :=
  C16_origin_pose_at_unit_zoom lmPoly (construct ⟨some (19 / 20), some (1 / 2), [-1, -2, 0]⟩ 0)
    sampleFile [Event.key 112] (-1) (-2) [0] rfl (by norm_num [construct]) (by decide)
    (by decide)
    (by norm_num [deliverAll, deliver, handleKey, WaitKeyJudge, DrawPosOnMap, LoadMapImage,
      construct, sampleFile, Mat.rows, Mat.cols])

/-! ## Stored points and stored request -/

/-- C19: after any sequence of keys and pose updates with at least one pose
update, `pose` being the last one ingested, the stored request is `pose`,
the stored points are its projection at the present zoom ratio and scaled
map height, and r and R redraw the marker that `DrawPosOnMap` would draw for
the stored request on a history view reset to the scaled map. -/
theorem C19_points_follow_request (lm : Libm) (s : Server) (events : List Event)
    (pose : Request) (h : lastPose events = some pose) :
    (deliverAll lm s events).req_ = pose
      ∧ (deliverAll lm s events).point_curr_
        = projectCenter (deliverAll lm s events).map_origin_
            (deliverAll lm s events).map_resolution_
            (deliverAll lm s events).resize_ratio_curr_
            (deliverAll lm s events).map_img_ori_small_.rows (deliverAll lm s events).req_
      ∧ (deliverAll lm s events).point_tip_
        = projectTip lm (deliverAll lm s events).map_origin_
            (deliverAll lm s events).map_resolution_
            (deliverAll lm s events).resize_ratio_curr_
            (deliverAll lm s events).map_img_ori_small_.rows (deliverAll lm s events).req_
      ∧ (DrawPosOnMap lm (deliverAll lm s events) (deliverAll lm s events).req_).point_curr_
        = (deliverAll lm s events).point_curr_
      ∧ (DrawPosOnMap lm (deliverAll lm s events) (deliverAll lm s events).req_).point_tip_
        = (deliverAll lm s events).point_tip_
      ∧ (WaitKeyJudge lm (deliverAll lm s events) 114).2.map_img_pos_hist_
        = (DrawPosOnMap lm
            { deliverAll lm s events with
              map_img_pos_hist_ := (deliverAll lm s events).map_img_ori_small_ }
            (deliverAll lm s events).req_).map_img_pos_hist_
      ∧ (WaitKeyJudge lm (deliverAll lm s events) 82).2.map_img_pos_hist_
        = (DrawPosOnMap lm
            { deliverAll lm s events with
              map_img_pos_hist_ := (deliverAll lm s events).map_img_ori_small_ }
            (deliverAll lm s events).req_).map_img_pos_hist_ := by
  obtain ⟨h1, h2, h3⟩ := synced_deliverAll lm events s none (by simp) pose h
  rw [← h1] at h2 h3
  simp only [markerOf] at h2 h3
  have hc : (DrawPosOnMap lm (deliverAll lm s events) (deliverAll lm s events).req_).point_curr_
      = (deliverAll lm s events).point_curr_ := by
    rw [h2]
    simp [DrawPosOnMap, projectCenter, Mat.copyTo, INDEX_X, INDEX_Y]
  have ht : (DrawPosOnMap lm (deliverAll lm s events) (deliverAll lm s events).req_).point_tip_
      = (deliverAll lm s events).point_tip_ := by
    rw [h3]
    simp [DrawPosOnMap, projectTip, Mat.copyTo, INDEX_X, INDEX_Y]
  have h2u := h2
  have h3u := h3
  simp only [projectCenter] at h2u
  simp only [projectTip] at h3u
  refine ⟨h1, h2, h3, hc, ht, ?_, ?_⟩
  · simp [WaitKeyJudge, DrawPosOnMap, Mat.copyTo, INDEX_X, INDEX_Y]
    exact ⟨by simpa using h2u, by simpa using h3u⟩
  · simp [WaitKeyJudge, DrawPosOnMap, Mat.copyTo, INDEX_X, INDEX_Y]
    exact ⟨by simpa using h2u, by simpa using h3u⟩

/-- Witness of C19: a pose update followed by a zoom on the sample server. -/
theorem C19_points_follow_request_witness :
    lastPose [Event.pose ⟨3, 4, 0⟩, Event.key 112] = some ⟨3, 4, 0⟩
      ∧ (deliverAll lmPoly sampleServer [Event.pose ⟨3, 4, 0⟩, Event.key 112]).req_
        = ⟨3, 4, 0⟩ :=
  ⟨rfl,
    (C19_points_follow_request lmPoly sampleServer [Event.pose ⟨3, 4, 0⟩, Event.key 112]
      ⟨3, 4, 0⟩ rfl).1⟩

/-! ## What zoom and reset draw -/

/-- With exact operations `DrawPosOnMapWith` is `DrawPosOnMap`. -/
theorem DrawPosOnMapWith_exact (lm : Libm) (s : Server) (req : Request) :
    DrawPosOnMapWith exactFpu lm s req = DrawPosOnMap lm s req := rfl

theorem cvResize_some (src : Mat) (fx fy : ℚ) (small : Mat)
    (h : cvResize src fx fy = some small) : small = Mat.resize src fx fy := by
  unfold cvResize at h
  split_ifs at h
  exact (Option.some.inj h).symm

/-- With exact operations a call of `WaitKeyJudgeWith` that returns gives
what `WaitKeyJudge` gives. -/
theorem WaitKeyJudgeWith_exact (lm : Libm) (s : Server) (k : Int) (r : Int × Server)
    (h : WaitKeyJudgeWith exactFpu lm s k = some r) : r = WaitKeyJudge lm s k := by
  unfold WaitKeyJudgeWith at h
  unfold WaitKeyJudge
  split_ifs at h ⊢ with c1 c2 c3 c4 c5 c6
  · exact (Option.some.inj h).symm
  · exact (Option.some.inj h).symm
  · exact (Option.some.inj h).symm
  · cases hres : cvResize s.map_img_ori_ (exactFpu.add s.resize_ratio_curr_ 0.05)
        (exactFpu.add s.resize_ratio_curr_ 0.05) with
    | none => simp [hres] at h
    | some small =>
      have hsmall := cvResize_some _ _ _ _ hres
      simp only [hres] at h
      rw [← Option.some.inj h, hsmall]
      rfl
  · cases hres : cvResize s.map_img_ori_ (exactFpu.sub s.resize_ratio_curr_ 0.05)
        (exactFpu.sub s.resize_ratio_curr_ 0.05) with
    | none => simp [hres] at h
    | some small =>
      have hsmall := cvResize_some _ _ _ _ hres
      simp only [hres] at h
      rw [← Option.some.inj h, hsmall]
      rfl
  · exact (Option.some.inj h).symm
  · exact (Option.some.inj h).symm

/-! ## Projection -/

/-- C6: on every arithmetic of the machine, the centre that `DrawPosOnMap`
stores in `point_curr_` is `(x - ox) * zoom / resolution` and
`H - (y - oy) / resolution * zoom`, with the operations in this order, each
converted to `int`, where `H` is the row count of the current view, which
is the row count of the scaled map. -/
theorem C6_center_formula (fp : Fpu) (lm : Libm) (s : Server) (req : Request) (ox oy : ℚ)
    (rest : List ℚ) (ho : s.map_origin_ = ox :: oy :: rest) (_hr : 0 < s.map_resolution_) :
    (DrawPosOnMapWith fp lm s req).point_curr_
        = ⟨fp.toInt (fp.div (fp.mul (fp.sub req.x ox) s.resize_ratio_curr_) s.map_resolution_),
            fp.toInt (fp.sub (fp.ofInt (DrawPosOnMapWith fp lm s req).map_img_pos_curr_.rows)
              (fp.mul (fp.div (fp.sub req.y oy) s.map_resolution_) s.resize_ratio_curr_))⟩
      ∧ (DrawPosOnMapWith fp lm s req).map_img_pos_curr_.rows = s.map_img_ori_small_.rows := by
  simp [DrawPosOnMapWith, Mat.copyTo, Mat.rows, INDEX_X, INDEX_Y, ho]

/-- Witness of C6: with exact operations a pose at (3, 4) on the sample map
lands on pixel (4, 14). -/
theorem C6_center_formula_witness :
    sampleServer.map_origin_ = (-1 : ℚ) :: (-2 : ℚ) :: [0]
      ∧ 0 < sampleServer.map_resolution_
      ∧ (DrawPosOnMapWith exactFpu lmPoly sampleServer ⟨3, 4, 0⟩).point_curr_
          = ⟨exactFpu.toInt (exactFpu.div
                (exactFpu.mul (exactFpu.sub 3 (-1)) sampleServer.resize_ratio_curr_)
                sampleServer.map_resolution_),
              exactFpu.toInt (exactFpu.sub
                (exactFpu.ofInt
                  (DrawPosOnMapWith exactFpu lmPoly sampleServer ⟨3, 4, 0⟩).map_img_pos_curr_.rows)
                (exactFpu.mul (exactFpu.div (exactFpu.sub 4 (-2)) sampleServer.map_resolution_)
                  sampleServer.resize_ratio_curr_))⟩
      ∧ (DrawPosOnMapWith exactFpu lmPoly sampleServer ⟨3, 4, 0⟩).point_curr_ = ⟨4, 14⟩ :=
  ⟨by simp [sampleServer_eq], by norm_num [sampleServer_eq],
    (C6_center_formula exactFpu lmPoly sampleServer ⟨3, 4, 0⟩ (-1) (-2) [0]
      (by simp [sampleServer_eq]) (by norm_num [sampleServer_eq])).1,
    by
      rw [sampleServer_eq]
      norm_num [DrawPosOnMapWith, exactFpu, toInt, Mat.copyTo, Mat.rows, cvRound, INDEX_X,
        INDEX_Y]⟩

/-! ## The zoom step and the call of `cv::resize` -/

/-- C9 as stated fails: the sample file loaded at the configured ratio 0.05
gives a scaled map of 2 rows; the key m (and M) then brings the ratio to 0,
`cv::resize` raises and `WaitKeyJudge` returns nothing. -/
theorem C9_zoom_out_to_zero_raises :
    (LoadMapImage (construct ⟨some 0.05, some (1 / 2), [-1, -2, 0]⟩ 0) sampleFile).1 = none
      ∧ (LoadMapImage (construct ⟨some 0.05, some (1 / 2), [-1, -2, 0]⟩ 0)
          sampleFile).2.resize_ratio_curr_ = 0.05
      ∧ (LoadMapImage (construct ⟨some 0.05, some (1 / 2), [-1, -2, 0]⟩ 0)
          sampleFile).2.map_img_ori_small_.rows = 2
      ∧ WaitKeyJudgeWith exactFpu lmPoly
          (LoadMapImage (construct ⟨some 0.05, some (1 / 2), [-1, -2, 0]⟩ 0) sampleFile).2 109
        = none
      ∧ WaitKeyJudgeWith exactFpu lmPoly
          (LoadMapImage (construct ⟨some 0.05, some (1 / 2), [-1, -2, 0]⟩ 0) sampleFile).2 77
        = none := by
  refine ⟨?_, ?_, ?_, ?_, ?_⟩ <;>
    norm_num [WaitKeyJudgeWith, cvResize, exactFpu, LoadMapImage, construct, sampleFile,
      Mat.rows, Mat.cols, Mat.clone, cvRound]

/-- C9, amended: with exact arithmetic and `znew` the ratio after the step
(the present ratio plus 0.05 for p and P, minus 0.05 for m and M, no clamp):
where `cv::resize` returns an image at `znew`, `WaitKeyJudge` returns the
view mode it found, with `resize_ratio_curr_` equal to `znew` and
`resize_ratio_prev_` equal to the earlier ratio; where `cv::resize` raises,
`WaitKeyJudge` returns nothing. -/
theorem C9_zoom_step (lm : Libm) (s : Server) (k : Int) (znew : ℚ)
    (hk : ((k = 112 ∨ k = 80) ∧ znew = s.resize_ratio_curr_ + 0.05)
      ∨ ((k = 109 ∨ k = 77) ∧ znew = s.resize_ratio_curr_ - 0.05)) :
    (∀ small, cvResize s.map_img_ori_ znew znew = some small →
        ∃ after, WaitKeyJudgeWith exactFpu lm s k = some (s.state_, after)
          ∧ after.resize_ratio_curr_ = znew
          ∧ after.resize_ratio_prev_ = s.resize_ratio_curr_)
      ∧ (cvResize s.map_img_ori_ znew znew = none → WaitKeyJudgeWith exactFpu lm s k = none) := by
  rcases hk with ⟨hkey, rfl⟩ | ⟨hkey, rfl⟩
  · constructor
    · intro small hsmall
      rcases hkey with rfl | rfl <;>
        simp [WaitKeyJudgeWith, exactFpu, hsmall, DrawPosOnMapWith]
    · intro hnone
      rcases hkey with rfl | rfl <;> simp [WaitKeyJudgeWith, exactFpu, hnone]
  · constructor
    · intro small hsmall
      rcases hkey with rfl | rfl <;>
        simp [WaitKeyJudgeWith, exactFpu, hsmall, DrawPosOnMapWith]
    · intro hnone
      rcases hkey with rfl | rfl <;> simp [WaitKeyJudgeWith, exactFpu, hnone]

/-- Witness of C9, amended: the key p on the sample server, from ratio 0.5 to
0.55. -/
theorem C9_zoom_step_witness :
    cvResize sampleServer.map_img_ori_ (sampleServer.resize_ratio_curr_ + 0.05)
        (sampleServer.resize_ratio_curr_ + 0.05)
      = some (Mat.resize (Mat.decoded 40 60 []) (11 / 20) (11 / 20))
    ∧ ∃ after, WaitKeyJudgeWith exactFpu lmPoly sampleServer 112
        = some (sampleServer.state_, after)
      ∧ after.resize_ratio_curr_ = sampleServer.resize_ratio_curr_ + 0.05
      ∧ after.resize_ratio_prev_ = sampleServer.resize_ratio_curr_ :=
  have hsmall : cvResize sampleServer.map_img_ori_ (sampleServer.resize_ratio_curr_ + 0.05)
      (sampleServer.resize_ratio_curr_ + 0.05)
      = some (Mat.resize (Mat.decoded 40 60 []) (11 / 20) (11 / 20)) := by
    rw [sampleServer_eq]
    norm_num [cvResize, Mat.rows, Mat.cols, cvRound]
  ⟨hsmall,
    (C9_zoom_step lmPoly sampleServer 112 (sampleServer.resize_ratio_curr_ + 0.05)
      (Or.inl ⟨Or.inl rfl, rfl⟩)).1 _ hsmall⟩

/-! ## The arrow tip at a right angle -/

end ThirdRobotMonitor
